import Mathlib

/-!
Verification of the egui 2D plot widget (`src/egui/src/widgets/plot/mod.rs`).

The plot orchestrator (`Plot::ui`), the axis-tick loop (`Prepared::paint_axis`)
and the nearest-point hover query (`Prepared::hover`) are embedded from the
source file.  The collaborator modules `transform.rs`, `items.rs` and
`legend.rs` are declared by `mod.rs` but are not part of the provided sources;
the `Bounds`, `ScreenTransform`, `Curve`, `HLine` and `VLine` definitions below
are therefore modelled from the specification (spec.md sections 3, 4.1, 4.2).

Numeric values (`f64`/`f32` in the source) are modelled as rationals; the
distinguished "NOTHING" bounds state (fields at plus/minus infinity) is modelled
with an explicit extended-rational type.  Visual attributes (colors, stroke
widths, alpha ramps, label text layout) are omitted: no claim depends on them.
-/

namespace EguiPlot

/-- Extended rationals: `f64` values together with the two infinities that the
`Bounds::NOTHING` sentinel uses.  (NaN never arises: per the spec, non-finite
inputs are excluded from bounds extension, and all data is modelled as ℚ.) -/
inductive ER where
  | negInf : ER
  | fin (q : ℚ) : ER
  | posInf : ER
deriving DecidableEq

/-- Less-or-equal test on extended rationals. -/
def ER.ble : ER → ER → Bool
  | .negInf, _ => true
  | _, .posInf => true
  | .posInf, _ => false
  | .fin _, .negInf => false
  | .fin a, .fin b => decide (a ≤ b)

/-- Minimum of two extended rationals (mirrors `f64::min` on non-NaN input). -/
def ER.emin (a b : ER) : ER := if a.ble b then a else b

/-- Maximum of two extended rationals (mirrors `f64::max` on non-NaN input). -/
def ER.emax (a b : ER) : ER := if a.ble b then b else a

/-- Whether the value is finite. -/
def ER.isFin : ER → Bool
  | .fin _ => true
  | _ => false

/-- Modelled from the spec (section 3, `transform.rs` is not under `src/`):
an axis-aligned data-space rectangle, `min: (f64,f64)`, `max: (f64,f64)`,
with "NOTHING" (min at plus infinity, max at minus infinity) as the
representable empty state. -/
structure Bounds where
  minX : ER
  minY : ER
  maxX : ER
  maxY : ER
deriving DecidableEq

/-- The distinguished empty bounds (`Bounds::NOTHING`). -/
def Bounds.NOTHING : Bounds := ⟨.posInf, .posInf, .negInf, .negInf⟩

/-- Modelled from the spec: valid means all coordinates finite and
pairwise `min <= max` on both axes. -/
def Bounds.is_valid (b : Bounds) : Bool :=
  b.minX.isFin && b.minY.isFin && b.maxX.isFin && b.maxY.isFin &&
    b.minX.ble b.maxX && b.minY.ble b.maxY

/-- Modelled from the spec: grow the x-axis range to include a scalar.
(The source's non-finite no-op case cannot arise: inputs are rationals.) -/
def Bounds.extend_with_x (b : Bounds) (x : ℚ) : Bounds :=
  { b with minX := b.minX.emin (.fin x), maxX := b.maxX.emax (.fin x) }

/-- Modelled from the spec: grow the y-axis range to include a scalar. -/
def Bounds.extend_with_y (b : Bounds) (y : ℚ) : Bounds :=
  { b with minY := b.minY.emin (.fin y), maxY := b.maxY.emax (.fin y) }

/-- Modelled from the spec: union of two bounds, a no-op when the other
bounds is invalid. -/
def Bounds.merge (b o : Bounds) : Bounds :=
  if o.is_valid then
    ⟨b.minX.emin o.minX, b.minY.emin o.minY, b.maxX.emax o.maxX, b.maxY.emax o.maxY⟩
  else b

/-- The fixed epsilon used by zero-width margin expansion.  The spec fixes
only that it is a positive constant ("a fixed epsilon"); the value is not
observable by any claim. -/
def marginEps : ℚ := 1 / 10

/-- Modelled from the spec (section 4.1): expand each axis by a fraction of
its width, or by a fixed epsilon when the axis has zero width; applies only
to valid bounds. -/
def Bounds.add_relative_margin (b : Bounds) (fx fy : ℚ) : Bounds :=
  match b.minX, b.minY, b.maxX, b.maxY with
  | .fin x0, .fin y0, .fin x1, .fin y1 =>
    if x0 ≤ x1 && y0 ≤ y1 then
      let dx := if x1 - x0 = 0 then marginEps else fx * (x1 - x0)
      let dy := if y1 - y0 = 0 then marginEps else fy * (y1 - y0)
      ⟨.fin (x0 - dx), .fin (y0 - dy), .fin (x1 + dx), .fin (y1 + dy)⟩
    else b
  | _, _, _, _ => b

/-- `Bounds::new_symmetrical(r)`: the square `[-r, r] × [-r, r]`. -/
def Bounds.new_symmetrical (r : ℚ) : Bounds :=
  ⟨.fin (-r), .fin (-r), .fin r, .fin r⟩

/-- Modelled from the spec: replace the x range by `[-r, r]`,
`r = max |min| |max|`, skipped when the axis bound is not finite-valid. -/
def Bounds.make_x_symmetrical (b : Bounds) : Bounds :=
  match b.minX, b.maxX with
  | .fin a, .fin c =>
    if a ≤ c then
      let r := max (abs a) (abs c)
      { b with minX := .fin (-r), maxX := .fin r }
    else b
  | _, _ => b

/-- Modelled from the spec: replace the y range by `[-r, r]`. -/
def Bounds.make_y_symmetrical (b : Bounds) : Bounds :=
  match b.minY, b.maxY with
  | .fin a, .fin c =>
    if a ≤ c then
      let r := max (abs a) (abs c)
      { b with minY := .fin (-r), maxY := .fin r }
    else b
  | _, _ => b

/-- Membership of a scalar in the closed x range of a bounds. -/
def Bounds.containsX (b : Bounds) (q : ℚ) : Bool :=
  b.minX.ble (.fin q) && (ER.fin q).ble b.maxX

/-- Membership of a scalar in the closed y range of a bounds. -/
def Bounds.containsY (b : Bounds) (q : ℚ) : Bool :=
  b.minY.ble (.fin q) && (ER.fin q).ble b.maxY

/-- A data point (`items::Value`). -/
structure Value where
  x : ℚ
  y : ℚ
deriving DecidableEq

/-- Containment of a data point in a bounds. -/
def Bounds.containsV (b : Bounds) (v : Value) : Bool :=
  b.containsX v.x && b.containsY v.y

/-- Modelled from the spec (section 3, `items.rs` is not under `src/`):
a named, ordered point sequence.  Stroke color and width are omitted
(purely visual); function-generated curves are modelled as their generated
point list, so `generate_points` is the identity here. -/
structure Curve where
  name : String
  values : List Value
deriving DecidableEq

/-- Grow the bounds to include a data point. -/
def Bounds.extendV (b : Bounds) (v : Value) : Bounds :=
  (b.extend_with_x v.x).extend_with_y v.y

/-- Modelled from the spec: the cached data-space bounds of a curve's own
values. -/
def Curve.bounds (c : Curve) : Bounds :=
  c.values.foldl Bounds.extendV Bounds.NOTHING

/-- A horizontal reference line (`items::HLine`), stroke omitted. -/
structure HLine where
  y : ℚ
deriving DecidableEq

/-- A vertical reference line (`items::VLine`), stroke omitted. -/
structure VLine where
  x : ℚ
deriving DecidableEq

/-- A screen-space position in points (`Pos2`). -/
structure Pos2 where
  x : ℚ
  y : ℚ
deriving DecidableEq

/-- Squared distance between two screen positions (`Pos2::distance_sq`). -/
def distance_sq (p q : Pos2) : ℚ :=
  (p.x - q.x) ^ 2 + (p.y - q.y) ^ 2

/-- A screen-space rectangle in points (`Rect`), always non-degenerate. -/
structure Rect where
  minX : ℚ
  minY : ℚ
  maxX : ℚ
  maxY : ℚ
deriving DecidableEq

def Rect.width (r : Rect) : ℚ := r.maxX - r.minX

def Rect.height (r : Rect) : ℚ := r.maxY - r.minY

/-- Modelled from the spec (section 4.2, `transform.rs` is not under `src/`):
the bidirectional affine mapping between valid finite data bounds and a
screen rectangle, with the per-axis "centered" flags.  The data bounds are
stored as four finite rationals since the transform is only ever constructed
from valid bounds. -/
structure ScreenTransform where
  frame : Rect
  bxmin : ℚ
  bxmax : ℚ
  bymin : ℚ
  bymax : ℚ
  centerX : Bool
  centerY : Bool
deriving DecidableEq

/-- The epsilon used when a zero-width axis is substituted by a small
symmetric range around the value (spec section 4.2; exact value not
observable by any claim). -/
def transformEps : ℚ := 1 / 10

/-- Extract a finite field of a valid bounds (the fallback value can not be
reached from the orchestrator, which always normalizes invalid bounds first). -/
def ER.finD (e : ER) (d : ℚ) : ℚ :=
  match e with
  | .fin q => q
  | _ => d

/-- Modelled from the spec: transform construction; a zero-width axis is
replaced by a small symmetric epsilon range centered on the given value. -/
def ScreenTransform.new (frame : Rect) (b : Bounds) (cx cy : Bool) : ScreenTransform :=
  let x0 := b.minX.finD (-1)
  let x1 := b.maxX.finD 1
  let y0 := b.minY.finD (-1)
  let y1 := b.maxY.finD 1
  let xr := if x1 - x0 = 0 then (x0 - transformEps, x1 + transformEps) else (x0, x1)
  let yr := if y1 - y0 = 0 then (y0 - transformEps, y1 + transformEps) else (y0, y1)
  ⟨frame, xr.1, xr.2, yr.1, yr.2, cx, cy⟩

/-- The transform's current data bounds (`ScreenTransform::bounds`). -/
def ScreenTransform.toBounds (t : ScreenTransform) : Bounds :=
  ⟨.fin t.bxmin, .fin t.bymin, .fin t.bxmax, .fin t.bymax⟩

/-- Modelled from the spec: data-to-screen affine map, y-axis flipped. -/
def ScreenTransform.position_from_value (t : ScreenTransform) (v : Value) : Pos2 :=
  ⟨t.frame.minX + (v.x - t.bxmin) / (t.bxmax - t.bxmin) * t.frame.width,
   t.frame.minY + (t.bymax - v.y) / (t.bymax - t.bymin) * t.frame.height⟩

/-- Modelled from the spec: the exact inverse screen-to-data map. -/
def ScreenTransform.value_from_position (t : ScreenTransform) (p : Pos2) : Value :=
  ⟨t.bxmin + (p.x - t.frame.minX) / t.frame.width * (t.bxmax - t.bxmin),
   t.bymax - (p.y - t.frame.minY) / t.frame.height * (t.bymax - t.bymin)⟩

/-- Pixels per data unit, per axis (y negative: screen y grows downwards). -/
def ScreenTransform.dpos_dvalue (t : ScreenTransform) : ℚ × ℚ :=
  (t.frame.width / (t.bxmax - t.bxmin), -(t.frame.height / (t.bymax - t.bymin)))

/-- Data units per pixel, per axis (reciprocal of `dpos_dvalue`). -/
def ScreenTransform.dvalue_dpos (t : ScreenTransform) : ℚ × ℚ :=
  ((t.bxmax - t.bxmin) / t.frame.width, -((t.bymax - t.bymin) / t.frame.height))

/-- Modelled from the spec: rescale the data bounds around the data-space
point under `center`, independently per axis; factor below one zooms in. -/
def ScreenTransform.zoom (t : ScreenTransform) (factor : ℚ × ℚ) (center : Pos2) :
    ScreenTransform :=
  let c := t.value_from_position center
  { t with
    bxmin := c.x + (t.bxmin - c.x) * factor.1
    bxmax := c.x + (t.bxmax - c.x) * factor.1
    bymin := c.y + (t.bymin - c.y) * factor.2
    bymax := c.y + (t.bymax - c.y) * factor.2 }

/-- Modelled from the spec: convert a pixel delta to a data delta via
`dvalue_dpos` and shift both min and max (pan). -/
def ScreenTransform.translate_bounds (t : ScreenTransform) (delta : ℚ × ℚ) :
    ScreenTransform :=
  let dx := delta.1 * t.dvalue_dpos.1
  let dy := delta.2 * t.dvalue_dpos.2
  { t with
    bxmin := t.bxmin + dx
    bxmax := t.bxmax + dx
    bymin := t.bymin + dy
    bymax := t.bymax + dy }

/-- Modelled from the spec: shrink the data bounds on whichever axis is too
wide relative to the pixel aspect ratio, preserving the other axis and
re-centering the shrunk one (aspect = data width / data height at equal
visual scale). -/
def ScreenTransform.set_aspect (t : ScreenTransform) (aspect : ℚ) : ScreenTransform :=
  let bw := t.bxmax - t.bxmin
  let bh := t.bymax - t.bymin
  let targetW := aspect * bh * t.frame.width / t.frame.height
  if targetW < bw then
    let cx := (t.bxmin + t.bxmax) / 2
    { t with bxmin := cx - targetW / 2, bxmax := cx + targetW / 2 }
  else
    let targetH := bw * t.frame.height / (aspect * t.frame.width)
    let cy := (t.bymin + t.bymax) / 2
    { t with bymin := cy - targetH / 2, bymax := cy + targetH / 2 }

/-! ## Axis tick generation (`Prepared::paint_axis`, mod.rs lines 535-613) -/

/-- Integer power of ten over the rationals, written so that the kernel can
reduce it on concrete inputs. -/
def pow10Z (z : ℤ) : ℚ :=
  if 0 ≤ z then (10 : ℚ) ^ z.toNat else ((1 : ℚ) / 10) ^ (-z).toNat

/-- Fuel-bounded computation of the least `n : ℕ` with `q ≤ 10 ^ n`
(meaningful for `1 < q`; the fuel passed below always suffices). -/
def ceilLogUp (fuel : ℕ) (q : ℚ) : ℕ :=
  if fuel = 0 then 0
  else if q ≤ 1 then 0 else ceilLogUp (fuel - 1) (q / 10) + 1
termination_by fuel
decreasing_by omega

/-- Fuel-bounded computation of the greatest `m : ℕ` with `q ≤ 10 ^ (-m)`
(meaningful for `0 < q ≤ 1`). -/
def ceilLogDown (fuel : ℕ) (q : ℚ) : ℕ :=
  if fuel = 0 then 0
  else if q ≤ 1 / 10 then ceilLogDown (fuel - 1) (q * 10) + 1 else 0
termination_by fuel
decreasing_by omega

/-- `log(q, 10).ceil()` of the source, on positive rationals: the least
integer `e` with `q ≤ 10 ^ e`.  The fuels `⌊q⌋ + 1` and `⌊1/q⌋ + 1` bound
the number of decimal-shift steps the search can need. -/
def ceilLog10 (q : ℚ) : ℤ :=
  if 1 < q then (ceilLogUp (⌊q⌋.toNat + 1) q : ℤ)
  else -(ceilLogDown (⌊1 / q⌋.toNat + 1) q : ℤ)

/-- `min_line_spacing_in_points` from `paint_axis`. -/
def min_line_spacing_in_points : ℚ := 6

/-- The axis component (0 = x, 1 = y) of `dvalue_dpos`. -/
def ScreenTransform.dvalue_dpos_axis (t : ScreenTransform) (axis : ℕ) : ℚ :=
  if axis = 0 then t.dvalue_dpos.1 else t.dvalue_dpos.2

/-- The axis component of the data bounds minimum. -/
def ScreenTransform.boundsMin (t : ScreenTransform) (axis : ℕ) : ℚ :=
  if axis = 0 then t.bxmin else t.bymin

/-- The axis component of the data bounds maximum. -/
def ScreenTransform.boundsMax (t : ScreenTransform) (axis : ℕ) : ℚ :=
  if axis = 0 then t.bxmax else t.bymax

/-- `step_size` of `paint_axis`: the power of ten
`10 ^ ceil(log10 |dvalue_dpos * min_line_spacing|)`. -/
def stepSizeOf (t : ScreenTransform) (axis : ℕ) : ℚ :=
  pow10Z (ceilLog10 (abs (t.dvalue_dpos_axis axis * min_line_spacing_in_points)))

/-- The candidate tick value of loop iteration `i`:
`step_size * (bounds.min / step_size + i).floor()`. -/
def tickValue (step bmin : ℚ) (i : ℕ) : ℚ :=
  step * (⌊bmin / step + (i : ℚ)⌋ : ℚ)

/-- The emission loop of `paint_axis`, fuel-bounded: starting at iteration
`i`, emit `tickValue` until it exceeds `bmax`, then break. -/
def ticksFrom (step bmin bmax : ℚ) (fuel i : ℕ) : List ℚ :=
  if fuel = 0 then []
  else
    let v := tickValue step bmin i
    if bmax < v then []
    else v :: ticksFrom step bmin bmax (fuel - 1) (i + 1)
termination_by fuel
decreasing_by omega

/-- The list of tick values emitted by `paint_axis` (the fuel bounds the
number of multiples of `step` between the axis bounds and is large enough
for the break to be reached first whenever the loop terminates at all). -/
def ticks (step bmin bmax : ℚ) : List ℚ :=
  ticksFrom step bmin bmax (⌊bmax / step⌋ - ⌊bmin / step⌋ + 2).toNat 0

/-- The ticks emitted for one axis of a transform. -/
def ticksOf (t : ScreenTransform) (axis : ℕ) : List ℚ :=
  ticks (stepSizeOf t axis) (t.boundsMin axis) (t.boundsMax axis)

/-! ## Nearest-point hover query (`Prepared::hover`, mod.rs lines 624-718) -/

/-- `interact_radius` of `Prepared::hover`. -/
def interact_radius : ℚ := 16

/-- The per-frame list of (curve name, point) pairs in scan order: curve
list order, then point order within each curve. -/
def flattenPoints (cs : List Curve) : List (String × Value) :=
  cs.flatMap fun c => c.values.map fun v => (c.name, v)

/-- The squared screen distance between the pointer and a candidate point. -/
def hoverDist (t : ScreenTransform) (p : Pos2) (nv : String × Value) : ℚ :=
  distance_sq p (t.position_from_value nv.2)

/-- One step of the hover scan: strictly closer candidates replace the
current best. -/
def hoverStep (t : ScreenTransform) (p : Pos2)
    (acc : ℚ × Option (String × Value)) (nv : String × Value) :
    ℚ × Option (String × Value) :=
  if hoverDist t p nv < acc.1 then (hoverDist t p nv, some nv) else acc

/-- The hover scan over all visible points, starting from
`closest_dist_sq = interact_radius^2` and no candidate. -/
def hoverScan (t : ScreenTransform) (p : Pos2) (pts : List (String × Value)) :
    ℚ × Option (String × Value) :=
  pts.foldl (hoverStep t p) (interact_radius ^ 2, none)

/-- The hover read-out: `none` when the query is disabled (neither axis
shown); otherwise the winning data point with its curve-name text (empty
names give no name text), or the inverse-transformed raw pointer position
with no name text when no point won. -/
def hoverResult (t : ScreenTransform) (sx sy : Bool) (cs : List Curve) (p : Pos2) :
    Option (Value × Option String) :=
  if !sx && !sy then none
  else
    match (hoverScan t p (flattenPoints cs)).2 with
    | some nv => some (nv.2, if nv.1 = "" then none else some nv.1)
    | none => some (t.value_from_position p, none)

/-! ## The plot orchestrator (`Plot::ui`, mod.rs lines 248-471) -/

/-- The per-frame configuration collected by the `Plot` builder.  The name
and visual fields are omitted; `margin_fraction` is `(0.05, 0.05)` in the
source (`Vec2::splat(0.05)`, no builder setter) but is kept as data. -/
structure PlotConfig where
  center_x_axis : Bool
  center_y_axis : Bool
  allow_zoom : Bool
  allow_drag : Bool
  min_auto_bounds : Bounds
  margin_fraction : ℚ × ℚ
  min_size : ℚ × ℚ
  width : Option ℚ
  height : Option ℚ
  data_aspect : Option ℚ
  view_aspect : Option ℚ
  show_x : Bool
  show_y : Bool
  show_legend : Bool

/-- The state persisted between frames (`PlotMemory`); the hidden-curve set
is modelled as a list with membership semantics. -/
structure PlotMemory where
  bounds : Bounds
  auto_bounds : Bool
  hidden_curves : List String
deriving DecidableEq

/-- The per-frame input snapshot consumed by `Plot::ui`: the available
layout size, the response flags of the allocated rect, the input state, and
the outcome of the legend layout (the checked state of each legend entry
after the user interacted with it, and whether some entry is hovered). -/
structure PlotInput where
  avail : ℚ × ℚ
  dragged_primary : Bool
  drag_delta : ℚ × ℚ
  double_clicked_primary : Bool
  hover_pos : Option Pos2
  zoom_delta : ℚ
  zoom_delta_2d : ℚ × ℚ
  scroll_delta : ℚ × ℚ
  checkedAfter : String → Bool
  legendHovered : Bool

/-- Size determination (mod.rs lines 290-311): an explicit width wins, else
height and view aspect produce it, else the available width; an explicit
height wins, else the view aspect divides the resolved width, else the
available height; both clamped from below by `min_size`. -/
def plotSize (cfg : PlotConfig) (avail : ℚ × ℚ) : ℚ × ℚ :=
  let w := max
    (cfg.width.getD
      (match cfg.height, cfg.view_aspect with
        | some h, some a => h * a
        | _, _ => avail.1))
    cfg.min_size.1
  let h := max
    (cfg.height.getD
      (match cfg.view_aspect with
        | some a => w / a
        | none => avail.2))
    cfg.min_size.2
  (w, h)

/-- The legend entry names: the deduplicated non-empty curve names. -/
def legendEntryNames (cs : List Curve) : List String :=
  ((cs.map Curve.name).filter fun n => n ≠ "").dedup

/-- The legend block (mod.rs lines 326-378): when shown, the hidden set is
recomputed as the entries left unchecked after layout and curves with a now
hidden name are removed; when not shown, curves and hidden set pass through
unchanged.  (The stroke-width doubling of hovered entries is visual only
and not modelled.) -/
def legendStep (showLegend : Bool) (checkedAfter : String → Bool)
    (cs : List Curve) (hiddenIn : List String) : List Curve × List String :=
  if showLegend then
    let hiddenOut := (legendEntryNames cs).filter fun n => !(checkedAfter n)
    (cs.filter fun c => !(hiddenOut.contains c.name), hiddenOut)
  else (cs, hiddenIn)

/-- Auto-fit bounds (mod.rs lines 385-391): start from the declared minimum
bounds, include every HLine y and VLine x, merge every visible curve's
bounds, then expand by the relative margin. -/
def autofitBounds (minAuto : Bounds) (margin : ℚ × ℚ)
    (hls : List HLine) (vls : List VLine) (cs : List Curve) : Bounds :=
  (cs.foldl (fun b c => b.merge c.bounds)
    (vls.foldl (fun b l => b.extend_with_x l.x)
      (hls.foldl (fun b l => b.extend_with_y l.y) minAuto))).add_relative_margin
    margin.1 margin.2

/-- The drag branch (mod.rs lines 413-416). -/
def dragStep (cfg : PlotConfig) (inp : PlotInput)
    (t : ScreenTransform) (auto : Bool) : ScreenTransform × Bool :=
  if cfg.allow_drag && inp.dragged_primary then
    (t.translate_bounds (-inp.drag_delta.1, -inp.drag_delta.2), false)
  else (t, auto)

/-- The zoom factor used (mod.rs lines 421-425): the scalar zoom delta
splatted when a data aspect is enforced, the two-dimensional delta
otherwise. -/
def zoomFactorUsed (cfg : PlotConfig) (inp : PlotInput) : ℚ × ℚ :=
  if cfg.data_aspect.isSome then (inp.zoom_delta, inp.zoom_delta) else inp.zoom_delta_2d

/-- The zoom and scroll branch (mod.rs lines 419-437): only with zooming
allowed and the pointer hovering; a zoom factor other than one and a
nonzero scroll delta each update the transform and drop out of auto mode. -/
def zoomScrollStep (cfg : PlotConfig) (inp : PlotInput)
    (t : ScreenTransform) (auto : Bool) : ScreenTransform × Bool :=
  if cfg.allow_zoom then
    match inp.hover_pos with
    | some pos =>
      let factor := zoomFactorUsed cfg inp
      let ta :=
        if factor ≠ (1, 1) then (t.zoom factor pos, false) else (t, auto)
      if inp.scroll_delta ≠ (0, 0) then
        (ta.1.translate_bounds (-inp.scroll_delta.1, -inp.scroll_delta.2), false)
      else ta
    | none => (t, auto)
  else (t, auto)

/-- Everything `Plot::ui` computes that later claims observe. -/
structure PlotOutput where
  size : ℚ × ℚ
  curvesShown : List Curve
  boundsAfterAutofit : Bounds
  resolvedBounds : Bounds
  transform : ScreenTransform
  persisted : PlotMemory
  hover : Option (Value × Option String)

/-- The orchestrator `Plot::ui` (mod.rs lines 248-471), drawing omitted:
restore (or create) memory, compute the size, run the legend block, fold the
double-click into the auto flag, resolve bounds (auto-fit, the symmetric
default for invalid bounds, axis centering), build the transform and enforce
the data aspect, apply drag then zoom/scroll, run the hover query, and
persist the transform's bounds with the new auto flag and hidden set.  The
allocated rect is placed at the layout origin. -/
def plotUi (cfg : PlotConfig) (mem0 : Option PlotMemory) (inp : PlotInput)
    (cs : List Curve) (hls : List HLine) (vls : List VLine) : PlotOutput :=
  let mem := mem0.getD
    ⟨cfg.min_auto_bounds, !cfg.min_auto_bounds.is_valid, []⟩
  let size := plotSize cfg inp.avail
  let rect : Rect := ⟨0, 0, size.1, size.2⟩
  let sxy :=
    if cfg.show_legend && inp.legendHovered then (false, false)
    else (cfg.show_x, cfg.show_y)
  let ch := legendStep cfg.show_legend inp.checkedAfter cs mem.hidden_curves
  let auto1 := mem.auto_bounds || inp.double_clicked_primary
  let b1 :=
    if auto1 || !mem.bounds.is_valid then
      autofitBounds cfg.min_auto_bounds cfg.margin_fraction hls vls ch.1
    else mem.bounds
  let b2 := if !b1.is_valid then Bounds.new_symmetrical 1 else b1
  let b3 :=
    (if cfg.center_y_axis then Bounds.make_y_symmetrical else id)
      ((if cfg.center_x_axis then Bounds.make_x_symmetrical else id) b2)
  let t0 := ScreenTransform.new rect b3 cfg.center_x_axis cfg.center_y_axis
  let t1 :=
    match cfg.data_aspect with
    | some a => t0.set_aspect a
    | none => t0
  let ta2 := dragStep cfg inp t1 auto1
  let ta3 := zoomScrollStep cfg inp ta2.1 ta2.2
  let hov :=
    match inp.hover_pos with
    | some p => hoverResult ta3.1 sxy.1 sxy.2 ch.1 p
    | none => none
  { size := size
    curvesShown := ch.1
    boundsAfterAutofit := b1
    resolvedBounds := b2
    transform := ta3.1
    persisted := ⟨ta3.1.toBounds, ta3.2, ch.2⟩
    hover := hov }

/-! ## Order facts about extended rationals -/

theorem ER.ble_refl (a : ER) : a.ble a = true := by
  cases a <;> simp [ER.ble]

theorem ER.ble_trans {a b c : ER} (h1 : a.ble b = true) (h2 : b.ble c = true) :
    a.ble c = true := by
  cases a <;> cases b <;> cases c <;>
    simp_all [ER.ble] <;> exact le_trans h1 h2

theorem ER.ble_total (a b : ER) : a.ble b = true ∨ b.ble a = true := by
  cases a <;> cases b <;> simp [ER.ble] <;> exact le_total _ _

theorem ER.emin_ble_left (a b : ER) : (ER.emin a b).ble a = true := by
  rw [ER.emin]
  split
  · exact ER.ble_refl a
  · rcases ER.ble_total a b with h | h
    · simp_all
    · exact h

theorem ER.emin_ble_right (a b : ER) : (ER.emin a b).ble b = true := by
  rw [ER.emin]
  split
  · assumption
  · exact ER.ble_refl b

theorem ER.ble_emax_left (a b : ER) : a.ble (ER.emax a b) = true := by
  rw [ER.emax]
  split
  · assumption
  · exact ER.ble_refl a

theorem ER.ble_emax_right (a b : ER) : b.ble (ER.emax a b) = true := by
  rw [ER.emax]
  split
  · exact ER.ble_refl b
  · rcases ER.ble_total a b with h | h
    · simp_all
    · exact h

/-! ## Bounds growth and containment -/

/-- `b` is contained in `b'` as a (possibly infinite) rectangle. -/
def Bounds.subsetOf (b b' : Bounds) : Prop :=
  b'.minX.ble b.minX = true ∧ b'.minY.ble b.minY = true ∧
    b.maxX.ble b'.maxX = true ∧ b.maxY.ble b'.maxY = true

theorem Bounds.subsetOf_refl (b : Bounds) : b.subsetOf b :=
  ⟨ER.ble_refl _, ER.ble_refl _, ER.ble_refl _, ER.ble_refl _⟩

theorem Bounds.subsetOf_trans {a b c : Bounds} (h1 : a.subsetOf b) (h2 : b.subsetOf c) :
    a.subsetOf c :=
  ⟨ER.ble_trans h2.1 h1.1, ER.ble_trans h2.2.1 h1.2.1,
    ER.ble_trans h1.2.2.1 h2.2.2.1, ER.ble_trans h1.2.2.2 h2.2.2.2⟩

theorem Bounds.containsX_mono {b b' : Bounds} {q : ℚ} (hs : b.subsetOf b')
    (h : b.containsX q = true) : b'.containsX q = true := by
  rw [Bounds.containsX, Bool.and_eq_true] at h ⊢
  exact ⟨ER.ble_trans hs.1 h.1, ER.ble_trans h.2 hs.2.2.1⟩

theorem Bounds.containsY_mono {b b' : Bounds} {q : ℚ} (hs : b.subsetOf b')
    (h : b.containsY q = true) : b'.containsY q = true := by
  rw [Bounds.containsY, Bool.and_eq_true] at h ⊢
  exact ⟨ER.ble_trans hs.2.1 h.1, ER.ble_trans h.2 hs.2.2.2⟩

theorem Bounds.containsV_mono {b b' : Bounds} {v : Value} (hs : b.subsetOf b')
    (h : b.containsV v = true) : b'.containsV v = true := by
  rw [Bounds.containsV, Bool.and_eq_true] at h ⊢
  exact ⟨Bounds.containsX_mono hs h.1, Bounds.containsY_mono hs h.2⟩

theorem Bounds.extend_with_x_subsetOf (b : Bounds) (x : ℚ) :
    b.subsetOf (b.extend_with_x x) :=
  ⟨ER.emin_ble_left _ _, ER.ble_refl _, ER.ble_emax_left _ _, ER.ble_refl _⟩

theorem Bounds.extend_with_y_subsetOf (b : Bounds) (y : ℚ) :
    b.subsetOf (b.extend_with_y y) :=
  ⟨ER.ble_refl _, ER.emin_ble_left _ _, ER.ble_refl _, ER.ble_emax_left _ _⟩

theorem Bounds.extend_with_x_containsX (b : Bounds) (x : ℚ) :
    (b.extend_with_x x).containsX x = true := by
  rw [Bounds.containsX, Bool.and_eq_true, Bounds.extend_with_x]
  exact ⟨ER.emin_ble_right _ _, ER.ble_emax_right _ _⟩

theorem Bounds.extend_with_y_containsY (b : Bounds) (y : ℚ) :
    (b.extend_with_y y).containsY y = true := by
  rw [Bounds.containsY, Bool.and_eq_true, Bounds.extend_with_y]
  exact ⟨ER.emin_ble_right _ _, ER.ble_emax_right _ _⟩

theorem Bounds.merge_subsetOf (b o : Bounds) : b.subsetOf (b.merge o) := by
  rw [Bounds.merge]
  split
  · exact ⟨ER.emin_ble_left _ _, ER.emin_ble_left _ _,
      ER.ble_emax_left _ _, ER.ble_emax_left _ _⟩
  · exact Bounds.subsetOf_refl b

theorem Bounds.merge_containsV (b : Bounds) {o : Bounds} {v : Value}
    (hval : o.is_valid = true) (h : o.containsV v = true) :
    (b.merge o).containsV v = true := by
  have hsub : o.subsetOf (b.merge o) := by
    rw [Bounds.merge, if_pos hval]
    exact ⟨ER.emin_ble_right _ _, ER.emin_ble_right _ _,
      ER.ble_emax_right _ _, ER.ble_emax_right _ _⟩
  exact Bounds.containsV_mono hsub h

theorem marginEps_pos : 0 < marginEps := by norm_num [marginEps]

theorem Bounds.add_relative_margin_subsetOf (b : Bounds) {fx fy : ℚ}
    (hfx : 0 ≤ fx) (hfy : 0 ≤ fy) : b.subsetOf (b.add_relative_margin fx fy) := by
  rcases b with ⟨bx, by', mx, my⟩
  rcases bx with _ | x0 | _ <;> rcases by' with _ | y0 | _ <;>
    rcases mx with _ | x1 | _ <;> rcases my with _ | y1 | _ <;>
    simp only [Bounds.add_relative_margin] <;>
    try exact Bounds.subsetOf_refl _
  split
  next h =>
    rw [Bool.and_eq_true, decide_eq_true_iff, decide_eq_true_iff] at h
    have hdx : (0:ℚ) ≤ if x1 - x0 = 0 then marginEps else fx * (x1 - x0) := by
      split
      · exact le_of_lt marginEps_pos
      · exact mul_nonneg hfx (by linarith [h.1])
    have hdy : (0:ℚ) ≤ if y1 - y0 = 0 then marginEps else fy * (y1 - y0) := by
      split
      · exact le_of_lt marginEps_pos
      · exact mul_nonneg hfy (by linarith [h.2])
    refine ⟨?_, ?_, ?_, ?_⟩ <;> simp only [ER.ble, decide_eq_true_iff] <;> linarith
  next => exact Bounds.subsetOf_refl _

/-- A growing fold only grows the bounds. -/
theorem foldl_subsetOf {α : Type} (f : Bounds → α → Bounds)
    (hf : ∀ (b : Bounds) (a : α), Bounds.subsetOf b (f b a)) :
    ∀ (l : List α) (b : Bounds), Bounds.subsetOf b (l.foldl f b) := by
  intro l
  induction l with
  | nil => intro b; exact Bounds.subsetOf_refl b
  | cons a l ih =>
    intro b
    exact Bounds.subsetOf_trans (hf b a) (ih (f b a))

/-- A growing fold that establishes `P` at some element preserves it to the
end, for any `P` monotone under growth. -/
theorem foldl_pred {α : Type} (P : Bounds → Prop) (f : Bounds → α → Bounds)
    (hf : ∀ (b : Bounds) (a : α), Bounds.subsetOf b (f b a))
    (hmono : ∀ {b b' : Bounds}, Bounds.subsetOf b b' → P b → P b') :
    ∀ (l : List α) (b : Bounds) (a : α), a ∈ l → (∀ b : Bounds, P (f b a)) →
      P (l.foldl f b) := by
  intro l
  induction l with
  | nil => intro b a ha; exact absurd ha (List.not_mem_nil a)
  | cons x l ih =>
    intro b a ha hstep
    rcases List.mem_cons.mp ha with rfl | ha
    · exact hmono (foldl_subsetOf f hf l (f b a)) (hstep b)
    · exact ih (f b x) a ha hstep

/-! ## The curve's cached bounds contain and validate its values -/

theorem ER.emin_fin_fin (a b : ℚ) : ER.emin (.fin a) (.fin b) = .fin (min a b) := by
  rw [ER.emin, ER.ble]
  split
  next h => rw [min_eq_left (by simpa using h)]
  next h => rw [min_eq_right (le_of_lt (by simpa using h))]

theorem ER.emax_fin_fin (a b : ℚ) : ER.emax (.fin a) (.fin b) = .fin (max a b) := by
  rw [ER.emax, ER.ble]
  split
  next h => rw [max_eq_right (by simpa using h)]
  next h => rw [max_eq_left (le_of_lt (by simpa using h))]

theorem Bounds.extendV_subsetOf (b : Bounds) (v : Value) : b.subsetOf (b.extendV v) :=
  Bounds.subsetOf_trans (Bounds.extend_with_x_subsetOf b v.x)
    (Bounds.extend_with_y_subsetOf _ v.y)

theorem Bounds.extendV_containsV (b : Bounds) (v : Value) :
    (b.extendV v).containsV v = true := by
  rw [Bounds.containsV, Bool.and_eq_true, Bounds.extendV]
  constructor
  · exact Bounds.containsX_mono (Bounds.extend_with_y_subsetOf _ _)
      (Bounds.extend_with_x_containsX b v.x)
  · exact Bounds.extend_with_y_containsY _ v.y

theorem curve_bounds_containsV {c : Curve} {v : Value} (h : v ∈ c.values) :
    c.bounds.containsV v = true := by
  rw [Curve.bounds]
  refine foldl_pred (fun b => b.containsV v = true) _ Bounds.extendV_subsetOf
    (fun hs hp => Bounds.containsV_mono hs hp) c.values Bounds.NOTHING v h ?_
  intro b
  exact Bounds.extendV_containsV b v

theorem Bounds.extendV_valid {b : Bounds} (v : Value) (hb : b.is_valid = true) :
    (b.extendV v).is_valid = true := by
  rcases b with ⟨bx, by', mx, my⟩
  rw [Bounds.is_valid] at hb
  simp only [Bool.and_eq_true] at hb
  obtain ⟨⟨⟨⟨⟨h1, h2⟩, h3⟩, h4⟩, h5⟩, h6⟩ := hb
  rcases bx with _ | x0 | _ <;> simp [ER.isFin] at h1
  rcases by' with _ | y0 | _ <;> simp [ER.isFin] at h2
  rcases mx with _ | x1 | _ <;> simp [ER.isFin] at h3
  rcases my with _ | y1 | _ <;> simp [ER.isFin] at h4
  rw [ER.ble, decide_eq_true_iff] at h5 h6
  rw [Bounds.extendV, Bounds.extend_with_x, Bounds.extend_with_y]
  simp only [Bounds.is_valid, ER.emin_fin_fin, ER.emax_fin_fin, ER.isFin, ER.ble,
    Bool.and_eq_true, decide_eq_true_iff, true_and, and_true]
  exact ⟨le_trans (min_le_left _ _) (le_trans h5 (le_max_left _ _)),
    le_trans (min_le_left _ _) (le_trans h6 (le_max_left _ _))⟩

theorem Bounds.extendV_NOTHING_valid (v : Value) :
    (Bounds.NOTHING.extendV v).is_valid = true := by
  rw [Bounds.extendV, Bounds.NOTHING, Bounds.extend_with_x, Bounds.extend_with_y]
  simp [ER.emin, ER.emax, ER.ble, Bounds.is_valid, ER.isFin]

theorem foldl_extendV_valid :
    ∀ (l : List Value) (b : Bounds), b.is_valid = true →
      (l.foldl Bounds.extendV b).is_valid = true := by
  intro l
  induction l with
  | nil => intro b hb; exact hb
  | cons x l ih => intro b hb; exact ih _ (Bounds.extendV_valid x hb)

theorem curve_bounds_valid {c : Curve} {v : Value} (h : v ∈ c.values) :
    c.bounds.is_valid = true := by
  rw [Curve.bounds]
  rcases c with ⟨name, values⟩
  cases values with
  | nil => exact absurd h (List.not_mem_nil v)
  | cons x l =>
    rw [List.foldl_cons]
    exact foldl_extendV_valid l _ (Bounds.extendV_NOTHING_valid x)

/-! ## The hover scan is a first-tie argmin with a strict radius -/

theorem hoverScan_go (t : ScreenTransform) (p : Pos2) :
    ∀ (pts : List (String × Value)) (b0 : ℚ) (acc0 : Option (String × Value)),
      (pts.foldl (hoverStep t p) (b0, acc0) = (b0, acc0) ∧
        ∀ u ∈ pts, b0 ≤ hoverDist t p u) ∨
      (∃ l1 v l2, pts = l1 ++ v :: l2 ∧
        pts.foldl (hoverStep t p) (b0, acc0) = (hoverDist t p v, some v) ∧
        hoverDist t p v < b0 ∧
        (∀ u ∈ l1, hoverDist t p v < hoverDist t p u) ∧
        (∀ u ∈ l2, hoverDist t p v ≤ hoverDist t p u)) := by
  intro pts
  induction pts with
  | nil =>
    intro b0 acc0
    exact Or.inl ⟨rfl, fun u hu => absurd hu (List.not_mem_nil u)⟩
  | cons x pts ih =>
    intro b0 acc0
    rw [List.foldl_cons]
    by_cases hx : hoverDist t p x < b0
    · rw [show hoverStep t p (b0, acc0) x = (hoverDist t p x, some x) from
        if_pos hx]
      rcases ih (hoverDist t p x) (some x) with ⟨heq, hall⟩ | ⟨l1, v, l2, hsplit, heq, hlt, h1, h2⟩
      · refine Or.inr ⟨[], x, pts, by simp, heq, hx, ?_, hall⟩
        intro u hu
        exact absurd hu (List.not_mem_nil u)
      · refine Or.inr ⟨x :: l1, v, l2, by rw [hsplit]; rfl, heq,
          lt_trans hlt hx, ?_, h2⟩
        intro u hu
        rcases List.mem_cons.mp hu with rfl | hu
        · exact hlt
        · exact h1 u hu
    · rw [show hoverStep t p (b0, acc0) x = (b0, acc0) from if_neg hx]
      rcases ih b0 acc0 with ⟨heq, hall⟩ | ⟨l1, v, l2, hsplit, heq, hlt, h1, h2⟩
      · refine Or.inl ⟨heq, ?_⟩
        intro u hu
        rcases List.mem_cons.mp hu with rfl | hu
        · exact le_of_not_lt hx
        · exact hall u hu
      · refine Or.inr ⟨x :: l1, v, l2, by rw [hsplit]; rfl, heq, hlt, ?_, h2⟩
        intro u hu
        rcases List.mem_cons.mp hu with rfl | hu
        · exact lt_of_lt_of_le hlt (le_of_not_lt hx)
        · exact h1 u hu

/-! ## Tick arithmetic -/

theorem pow10Z_pos (z : ℤ) : 0 < pow10Z z := by
  rw [pow10Z]
  split
  · positivity
  · positivity

theorem stepSizeOf_pos (t : ScreenTransform) (axis : ℕ) : 0 < stepSizeOf t axis :=
  pow10Z_pos _

theorem tickValue_succ {step : ℚ} (bmin : ℚ) (i : ℕ) :
    tickValue step bmin (i + 1) = tickValue step bmin i + step := by
  rw [tickValue, tickValue]
  have : bmin / step + ((i : ℚ) + 1) = (bmin / step + (i : ℚ)) + 1 := by ring
  push_cast
  rw [this, Int.floor_add_one]
  push_cast
  ring

theorem tickValue_le_bmax {step bmin bmax : ℚ} (hstep : 0 < step) (i : ℕ)
    (h : tickValue step bmin i ≤ bmax) :
    ((⌊bmin / step⌋ + i : ℤ) : ℚ) ≤ bmax / step := by
  rw [tickValue] at h
  have hfl : ⌊bmin / step + (i : ℚ)⌋ = ⌊bmin / step⌋ + (i : ℤ) := by
    rw [show ((i : ℚ)) = ((i : ℤ) : ℚ) by push_cast; ring, Int.floor_add_int]
  rw [hfl] at h
  rw [le_div_iff hstep]
  linarith [h]

theorem tickValue_lower {step bmin : ℚ} (hstep : 0 < step) (i : ℕ) :
    bmin - step < tickValue step bmin i := by
  rw [tickValue]
  have h1 : bmin / step - 1 < (⌊bmin / step + (i : ℚ)⌋ : ℚ) := by
    have h2 : ⌊bmin / step⌋ ≤ ⌊bmin / step + (i : ℚ)⌋ :=
      Int.floor_le_floor (le_add_of_nonneg_right (by positivity))
    calc bmin / step - 1 < ((⌊bmin / step⌋ : ℚ)) := Int.sub_one_lt_floor _
    _ ≤ (⌊bmin / step + (i : ℚ)⌋ : ℚ) := by exact_mod_cast h2
  have := mul_lt_mul_of_pos_left h1 hstep
  calc bmin - step = step * (bmin / step - 1) := by field_simp
  _ < step * (⌊bmin / step + (i : ℚ)⌋ : ℚ) := this

theorem ticksFrom_mem {step bmin bmax : ℚ} :
    ∀ (fuel i : ℕ) (v : ℚ), v ∈ ticksFrom step bmin bmax fuel i →
      (∃ k : ℕ, v = tickValue step bmin (i + k)) ∧ v ≤ bmax := by
  intro fuel
  induction fuel with
  | zero =>
    intro i v hv
    rw [ticksFrom, if_pos rfl] at hv
    exact absurd hv (List.not_mem_nil v)
  | succ f ih =>
    intro i v hv
    rw [ticksFrom] at hv
    simp only [Nat.succ_ne_zero, if_false, Nat.add_sub_cancel] at hv
    split at hv
    · exact absurd hv (List.not_mem_nil v)
    next hle =>
      rcases List.mem_cons.mp hv with rfl | hv
      · exact ⟨⟨0, by rw [Nat.add_zero]⟩, le_of_not_lt hle⟩
      · rcases ih (i + 1) v hv with ⟨⟨k, hk⟩, hb⟩
        exact ⟨⟨k + 1, by rw [hk]; ring_nf⟩, hb⟩

theorem ticksFrom_head {step bmin bmax : ℚ} :
    ∀ (fuel i : ℕ) (a : ℚ) (l' : List ℚ),
      ticksFrom step bmin bmax fuel i = a :: l' → a = tickValue step bmin i := by
  intro fuel i a l' h
  rw [ticksFrom] at h
  split at h
  · exact absurd h (by simp)
  · simp only [] at h
    split at h
    · exact absurd h (by simp)
    · exact ((List.cons.inj h).1).symm

theorem ticksFrom_adjacent {step bmin bmax : ℚ} :
    ∀ (fuel i : ℕ) (l1 : List ℚ) (a b : ℚ) (l2 : List ℚ),
      ticksFrom step bmin bmax fuel i = l1 ++ a :: b :: l2 →
        b = a + step := by
  intro fuel
  induction fuel with
  | zero =>
    intro i l1 a b l2 h
    rw [ticksFrom, if_pos rfl] at h
    exact absurd h.symm (List.append_ne_nil_of_right_ne_nil l1 (by simp))
  | succ f ih =>
    intro i l1 a b l2 h
    rw [ticksFrom] at h
    simp only [Nat.succ_ne_zero, if_false, Nat.add_sub_cancel] at h
    split at h
    · exact absurd h.symm (List.append_ne_nil_of_right_ne_nil l1 (by simp))
    · cases l1 with
      | nil =>
        rw [List.nil_append] at h
        have h1 := (List.cons.inj h).1
        have h2 := (List.cons.inj h).2
        have hb := ticksFrom_head f (i + 1) b l2 h2
        rw [hb, tickValue_succ, ← h1]
      | cons x l1 =>
        exact ih (i + 1) l1 a b l2 (List.cons.inj h).2

/-- The break of the tick loop is reached: some iteration exceeds the upper
bound. -/
theorem tick_break_exists {step bmin bmax : ℚ} (hstep : 0 < step) :
    ∃ i : ℕ, bmax < tickValue step bmin i := by
  obtain ⟨n, hn⟩ := exists_nat_gt (bmax / step - (⌊bmin / step⌋ : ℚ))
  refine ⟨n, ?_⟩
  have hfl : ⌊bmin / step + (n : ℚ)⌋ = ⌊bmin / step⌋ + (n : ℤ) := by
    rw [show ((n : ℚ)) = ((n : ℤ) : ℚ) by push_cast; ring, Int.floor_add_int]
  rw [tickValue, hfl]
  have h1 : bmax / step < (⌊bmin / step⌋ : ℚ) + (n : ℚ) := by linarith
  have h2 := mul_lt_mul_of_pos_left h1 hstep
  calc bmax = step * (bmax / step) := by field_simp
  _ < step * ((⌊bmin / step⌋ : ℚ) + (n : ℚ)) := h2
  _ = step * ((⌊bmin / step⌋ + (n : ℤ) : ℤ) : ℚ) := by push_cast; ring

/-! ## Input handling lemmas -/

theorem dragStep_dragged {cfg : PlotConfig} {inp : PlotInput}
    (t : ScreenTransform) (auto : Bool)
    (h1 : cfg.allow_drag = true) (h2 : inp.dragged_primary = true) :
    (dragStep cfg inp t auto).2 = false := by
  rw [dragStep]
  simp [h1, h2]

theorem dragStep_not_dragged {cfg : PlotConfig} {inp : PlotInput}
    (t : ScreenTransform) (auto : Bool) (h2 : inp.dragged_primary = false) :
    dragStep cfg inp t auto = (t, auto) := by
  rw [dragStep]
  simp [h2]

theorem zoomScrollStep_keep_false {cfg : PlotConfig} {inp : PlotInput}
    (t : ScreenTransform) : (zoomScrollStep cfg inp t false).2 = false := by
  rw [zoomScrollStep]
  split
  · rcases hh : inp.hover_pos with _ | pos
    · rfl
    · simp only []
      split
      · rfl
      · split <;> rfl
  · rfl

theorem zoomScrollStep_zoom {cfg : PlotConfig} {inp : PlotInput}
    (t : ScreenTransform) (auto : Bool) {p : Pos2}
    (hz : cfg.allow_zoom = true) (hh : inp.hover_pos = some p)
    (hf : zoomFactorUsed cfg inp ≠ (1, 1)) :
    (zoomScrollStep cfg inp t auto).2 = false := by
  rw [zoomScrollStep, if_pos hz, hh]
  simp only []
  rw [if_pos hf]
  split <;> rfl

theorem zoomScrollStep_scroll {cfg : PlotConfig} {inp : PlotInput}
    (t : ScreenTransform) (auto : Bool) {p : Pos2}
    (hz : cfg.allow_zoom = true) (hh : inp.hover_pos = some p)
    (hs : inp.scroll_delta ≠ (0, 0)) :
    (zoomScrollStep cfg inp t auto).2 = false := by
  rw [zoomScrollStep, if_pos hz, hh]
  simp only []
  split
  · rfl
  next hns => exact absurd hs hns

theorem zoomScrollStep_neutral {cfg : PlotConfig} {inp : PlotInput}
    (t : ScreenTransform) (auto : Bool)
    (h1 : inp.zoom_delta = 1) (h2 : inp.zoom_delta_2d = (1, 1))
    (h3 : inp.scroll_delta = (0, 0)) :
    zoomScrollStep cfg inp t auto = (t, auto) := by
  have hf : zoomFactorUsed cfg inp = (1, 1) := by
    rw [zoomFactorUsed]
    split
    · rw [h1]
    · exact h2
  rw [zoomScrollStep]
  split
  · rcases hh : inp.hover_pos with _ | pos
    · rfl
    · simp only []
      rw [if_neg (show ¬inp.scroll_delta ≠ (0, 0) by rw [h3]; exact fun h => h rfl),
        if_neg (show ¬zoomFactorUsed cfg inp ≠ (1, 1) by rw [hf]; exact fun h => h rfl)]
  · rfl

/-! ## Claim theorems -/

/-- Claim C10: with no pointer hover the zoom/scroll path leaves both the
transform's data bounds and the auto flag unchanged; with a hover but a zoom
factor of exactly one on both axes and a zero scroll delta, it likewise
changes nothing. -/
theorem zoom_scroll_requires_hover (cfg : PlotConfig) (inp : PlotInput)
    (t : ScreenTransform) (auto : Bool) :
    (inp.hover_pos = none → zoomScrollStep cfg inp t auto = (t, auto)) ∧
    (inp.zoom_delta = 1 → inp.zoom_delta_2d = (1, 1) → inp.scroll_delta = (0, 0) →
      zoomScrollStep cfg inp t auto = (t, auto)) := by
  constructor
  · intro hh
    rw [zoomScrollStep]
    split
    · rw [hh]
    · rfl
  · exact zoomScrollStep_neutral t auto

/-- Witness for C10 at a concrete non-hovering input. -/
theorem zoom_scroll_requires_hover_witness :
    (PlotInput.mk (100, 100) false (0, 0) false none 2 (2, 2) (3, 3)
        (fun _ => true) false).hover_pos = none ∧
    zoomScrollStep
        ⟨false, false, true, true, Bounds.NOTHING, (1/20, 1/20), (64, 64),
          none, none, none, none, true, true, true⟩
        (PlotInput.mk (100, 100) false (0, 0) false none 2 (2, 2) (3, 3)
          (fun _ => true) false)
        ⟨⟨0, 0, 100, 100⟩, 0, 1, 0, 1, false, false⟩ true =
      (⟨⟨0, 0, 100, 100⟩, 0, 1, 0, 1, false, false⟩, true) :=
  ⟨rfl,
    (zoom_scroll_requires_hover _ _ _ _).1 rfl⟩

/-- Claim C5: the persisted mode flag steps as specified: a primary drag
(with dragging allowed), an effective zoom factor other than one, or a
nonzero scroll delta (with zooming allowed and the pointer hovering) all
persist `auto_bounds = false`; a primary double-click with no counteracting
drag/zoom/scroll input persists `auto_bounds = true`. -/
theorem mode_transitions (cfg : PlotConfig) (mem : PlotMemory) (inp : PlotInput)
    (cs : List Curve) (hls : List HLine) (vls : List VLine) (p : Pos2) :
    (cfg.allow_drag = true → inp.dragged_primary = true →
      (plotUi cfg (some mem) inp cs hls vls).persisted.auto_bounds = false) ∧
    (cfg.allow_zoom = true → inp.hover_pos = some p → zoomFactorUsed cfg inp ≠ (1, 1) →
      (plotUi cfg (some mem) inp cs hls vls).persisted.auto_bounds = false) ∧
    (cfg.allow_zoom = true → inp.hover_pos = some p → inp.scroll_delta ≠ (0, 0) →
      (plotUi cfg (some mem) inp cs hls vls).persisted.auto_bounds = false) ∧
    (inp.double_clicked_primary = true → inp.dragged_primary = false →
      inp.zoom_delta = 1 → inp.zoom_delta_2d = (1, 1) → inp.scroll_delta = (0, 0) →
      (plotUi cfg (some mem) inp cs hls vls).persisted.auto_bounds = true) := by
  simp only [plotUi, Option.getD_some]
  refine ⟨?_, ?_, ?_, ?_⟩
  · intro h1 h2
    rw [dragStep_dragged _ _ h1 h2]
    exact zoomScrollStep_keep_false _
  · intro hz hh hf
    exact zoomScrollStep_zoom _ _ hz hh hf
  · intro hz hh hs
    exact zoomScrollStep_scroll _ _ hz hh hs
  · intro hdbl hdrag h1 h2 h3
    rw [dragStep_not_dragged _ _ hdrag]
    rw [zoomScrollStep_neutral _ _ h1 h2 h3]
    rw [hdbl]
    simp

/-- Witness for C5 at a concrete dragging input. -/
theorem mode_transitions_witness :
    (true : Bool) = true ∧ (true : Bool) = true ∧
    (plotUi
        ⟨false, false, true, true, Bounds.NOTHING, (1/20, 1/20), (64, 64),
          none, none, none, none, true, true, false⟩
        (some ⟨Bounds.new_symmetrical 1, true, []⟩)
        (PlotInput.mk (100, 100) true (1, 1) false none 1 (1, 1) (0, 0)
          (fun _ => true) false)
        [] [] []).persisted.auto_bounds = false :=
  ⟨rfl, rfl,
    (mode_transitions
      ⟨false, false, true, true, Bounds.NOTHING, (1/20, 1/20), (64, 64),
        none, none, none, none, true, true, false⟩
      ⟨Bounds.new_symmetrical 1, true, []⟩
      (PlotInput.mk (100, 100) true (1, 1) false none 1 (1, 1) (0, 0)
        (fun _ => true) false)
      [] [] [] ⟨0, 0⟩).1 rfl rfl⟩

theorem new_symmetrical_one_valid : (Bounds.new_symmetrical 1).is_valid = true := by
  rw [Bounds.new_symmetrical, Bounds.is_valid]
  norm_num [ER.isFin, ER.ble]

theorem resolve_default (b : Bounds) :
    (if !b.is_valid then Bounds.new_symmetrical 1 else b).is_valid = true ∧
    (b.is_valid = false →
      (if !b.is_valid then Bounds.new_symmetrical 1 else b) = Bounds.new_symmetrical 1) := by
  rcases hb : b.is_valid
  · refine ⟨?_, fun _ => ?_⟩ <;> simp [new_symmetrical_one_valid]
  · exact ⟨by simpa using hb, fun h => absurd h (by simp)⟩

/-- Claim C6: the bounds handed to the transform are never invalid: whenever
the bounds are still invalid after auto-fit resolution or after restoring
persisted state, they are replaced by the unit-symmetric default before the
transform is built. -/
theorem invalid_bounds_normalized (cfg : PlotConfig) (mem0 : Option PlotMemory)
    (inp : PlotInput) (cs : List Curve) (hls : List HLine) (vls : List VLine) :
    (plotUi cfg mem0 inp cs hls vls).resolvedBounds.is_valid = true ∧
    ((plotUi cfg mem0 inp cs hls vls).boundsAfterAutofit.is_valid = false →
      (plotUi cfg mem0 inp cs hls vls).resolvedBounds = Bounds.new_symmetrical 1) := by
  simp only [plotUi]
  exact resolve_default _

/-- Witness for C6: a plot with no data, no declared minimum and no restored
memory resolves its bounds to the unit-symmetric default. -/
theorem invalid_bounds_normalized_witness :
    (plotUi
        ⟨false, false, true, true, Bounds.NOTHING, (1/20, 1/20), (64, 64),
          none, none, none, none, true, true, false⟩
        none
        (PlotInput.mk (100, 100) false (0, 0) false none 1 (1, 1) (0, 0)
          (fun _ => true) false)
        [] [] []).resolvedBounds.is_valid = true ∧
    ((plotUi
        ⟨false, false, true, true, Bounds.NOTHING, (1/20, 1/20), (64, 64),
          none, none, none, none, true, true, false⟩
        none
        (PlotInput.mk (100, 100) false (0, 0) false none 1 (1, 1) (0, 0)
          (fun _ => true) false)
        [] [] []).boundsAfterAutofit.is_valid = false) ∧
    ((plotUi
        ⟨false, false, true, true, Bounds.NOTHING, (1/20, 1/20), (64, 64),
          none, none, none, none, true, true, false⟩
        none
        (PlotInput.mk (100, 100) false (0, 0) false none 1 (1, 1) (0, 0)
          (fun _ => true) false)
        [] [] []).resolvedBounds = Bounds.new_symmetrical 1) := by
  have hinvalid : (plotUi
      ⟨false, false, true, true, Bounds.NOTHING, (1/20, 1/20), (64, 64),
        none, none, none, none, true, true, false⟩
      none
      (PlotInput.mk (100, 100) false (0, 0) false none 1 (1, 1) (0, 0)
        (fun _ => true) false)
      [] [] []).boundsAfterAutofit.is_valid = false := by
    simp only [plotUi, Option.getD_none, legendStep, autofitBounds, List.foldl_nil]
    norm_num [Bounds.NOTHING, Bounds.is_valid, Bounds.add_relative_margin, ER.isFin]
  have h := invalid_bounds_normalized
    ⟨false, false, true, true, Bounds.NOTHING, (1/20, 1/20), (64, 64),
      none, none, none, none, true, true, false⟩
    none
    (PlotInput.mk (100, 100) false (0, 0) false none 1 (1, 1) (0, 0)
      (fun _ => true) false)
    [] [] []
  exact ⟨h.1, hinvalid, h.2 hinvalid⟩

/-- Claim C9: with the legend disabled, the persisted hidden set is written
back exactly as it was read, and the frame's curve list (which feeds
rendering, auto-fit and hover) is not filtered. -/
theorem legend_off_passthrough (cfg : PlotConfig) (mem : PlotMemory)
    (inp : PlotInput) (cs : List Curve) (hls : List HLine) (vls : List VLine)
    (h : cfg.show_legend = false) :
    (plotUi cfg (some mem) inp cs hls vls).persisted.hidden_curves = mem.hidden_curves ∧
    (plotUi cfg (some mem) inp cs hls vls).curvesShown = cs := by
  simp only [plotUi, Option.getD_some, legendStep, h]
  exact ⟨rfl, rfl⟩

/-- Witness for C9 at a concrete legend-less plot with one hidden name. -/
theorem legend_off_passthrough_witness :
    (⟨false, false, true, true, Bounds.NOTHING, (1/20, 1/20), (64, 64),
        none, none, none, none, true, true, false⟩ : PlotConfig).show_legend = false ∧
    (plotUi
        ⟨false, false, true, true, Bounds.NOTHING, (1/20, 1/20), (64, 64),
          none, none, none, none, true, true, false⟩
        (some ⟨Bounds.new_symmetrical 1, true, ["a"]⟩)
        (PlotInput.mk (100, 100) false (0, 0) false none 1 (1, 1) (0, 0)
          (fun _ => false) false)
        [⟨"a", [⟨1, 2⟩]⟩] [] []).persisted.hidden_curves = ["a"] ∧
    (plotUi
        ⟨false, false, true, true, Bounds.NOTHING, (1/20, 1/20), (64, 64),
          none, none, none, none, true, true, false⟩
        (some ⟨Bounds.new_symmetrical 1, true, ["a"]⟩)
        (PlotInput.mk (100, 100) false (0, 0) false none 1 (1, 1) (0, 0)
          (fun _ => false) false)
        [⟨"a", [⟨1, 2⟩]⟩] [] []).curvesShown = [⟨"a", [⟨1, 2⟩]⟩] := by
  have h := legend_off_passthrough
    ⟨false, false, true, true, Bounds.NOTHING, (1/20, 1/20), (64, 64),
      none, none, none, none, true, true, false⟩
    ⟨Bounds.new_symmetrical 1, true, ["a"]⟩
    (PlotInput.mk (100, 100) false (0, 0) false none 1 (1, 1) (0, 0)
      (fun _ => false) false)
    [⟨"a", [⟨1, 2⟩]⟩] [] [] rfl
  exact ⟨rfl, h.1, h.2⟩

/-- Claim C8: the allocated size follows the documented precedence: an
explicit width is used as given; otherwise explicit height and view aspect
produce it; otherwise the available width.  An explicit height is used as
given; otherwise a view aspect divides the resolved width; otherwise the
available height.  Each resolved dimension is clamped from below by the
configured minimum size. -/
theorem size_precedence (cfg : PlotConfig) (avail : ℚ × ℚ) :
    (∀ w, cfg.width = some w → (plotSize cfg avail).1 = max w cfg.min_size.1) ∧
    (cfg.width = none → ∀ h a, cfg.height = some h → cfg.view_aspect = some a →
      (plotSize cfg avail).1 = max (h * a) cfg.min_size.1) ∧
    (cfg.width = none → (cfg.height = none ∨ cfg.view_aspect = none) →
      (plotSize cfg avail).1 = max avail.1 cfg.min_size.1) ∧
    (∀ h, cfg.height = some h → (plotSize cfg avail).2 = max h cfg.min_size.2) ∧
    (cfg.height = none → ∀ a, cfg.view_aspect = some a →
      (plotSize cfg avail).2 = max ((plotSize cfg avail).1 / a) cfg.min_size.2) ∧
    (cfg.height = none → cfg.view_aspect = none →
      (plotSize cfg avail).2 = max avail.2 cfg.min_size.2) := by
  refine ⟨?_, ?_, ?_, ?_, ?_, ?_⟩
  · intro w hw
    simp [plotSize, hw]
  · intro hw h a hh ha
    simp [plotSize, hw, hh, ha]
  · intro hw hor
    rcases hor with hh | ha
    · simp [plotSize, hw, hh]
    · rcases hh : cfg.height with _ | h
      · simp [plotSize, hw, hh, ha]
      · simp [plotSize, hw, hh, ha]
  · intro h hh
    simp [plotSize, hh]
  · intro hh a ha
    simp [plotSize, hh, ha]
  · intro hh ha
    simp [plotSize, hh, ha]

/-- Witness for C8: only a view aspect set, so the width fills the available
space and the height follows from the aspect. -/
theorem size_precedence_witness :
    ((⟨false, false, true, true, Bounds.NOTHING, (1/20, 1/20), (64, 64),
        none, none, none, some 2, true, true, true⟩ : PlotConfig).width = none) ∧
    ((⟨false, false, true, true, Bounds.NOTHING, (1/20, 1/20), (64, 64),
        none, none, none, some 2, true, true, true⟩ : PlotConfig).height = none) ∧
    (plotSize
        ⟨false, false, true, true, Bounds.NOTHING, (1/20, 1/20), (64, 64),
          none, none, none, some 2, true, true, true⟩ (200, 500)).2 =
      max ((plotSize
        ⟨false, false, true, true, Bounds.NOTHING, (1/20, 1/20), (64, 64),
          none, none, none, some 2, true, true, true⟩ (200, 500)).1 / 2) 64 := by
  have h := (size_precedence
    ⟨false, false, true, true, Bounds.NOTHING, (1/20, 1/20), (64, 64),
      none, none, none, some 2, true, true, true⟩ (200, 500)).2.2.2.2.1 rfl 2 rfl
  exact ⟨rfl, rfl, h⟩

theorem mem_legendEntryNames {cs : List Curve} {N : String} :
    N ∈ legendEntryNames cs ↔ (N ≠ "" ∧ ∃ c ∈ cs, c.name = N) := by
  rw [legendEntryNames, List.mem_dedup, List.mem_filter]
  simp only [List.mem_map, decide_eq_true_iff]
  constructor
  · rintro ⟨⟨c, hc, hname⟩, hne⟩
    exact ⟨hne, c, hc, hname⟩
  · rintro ⟨hne, c, hc, hname⟩
    exact ⟨⟨c, hc, hname⟩, hne⟩

/-- Claim C7: with the legend shown, an entry named `N` left unchecked puts
`N` into the persisted hidden set and removes every curve named `N` from the
frame's curve list (the list that feeds rendering, auto-fit bounds and the
hover query); an entry left checked keeps `N` out of the hidden set and
leaves the curves named `N` in the list. -/
theorem legend_hiding (cfg : PlotConfig) (mem : PlotMemory) (inp : PlotInput)
    (cs : List Curve) (hls : List HLine) (vls : List VLine) (N : String)
    (hleg : cfg.show_legend = true) (hN : N ≠ "") :
    (inp.checkedAfter N = false → (∃ c ∈ cs, c.name = N) →
      N ∈ (plotUi cfg (some mem) inp cs hls vls).persisted.hidden_curves ∧
      ∀ c ∈ (plotUi cfg (some mem) inp cs hls vls).curvesShown, c.name ≠ N) ∧
    (inp.checkedAfter N = true →
      N ∉ (plotUi cfg (some mem) inp cs hls vls).persisted.hidden_curves ∧
      ∀ c ∈ cs, c.name = N → c ∈ (plotUi cfg (some mem) inp cs hls vls).curvesShown) := by
  have hhid : (plotUi cfg (some mem) inp cs hls vls).persisted.hidden_curves =
      (legendEntryNames cs).filter (fun n => !(inp.checkedAfter n)) := by
    simp only [plotUi, Option.getD_some, legendStep, hleg, if_true]
  have hcur : (plotUi cfg (some mem) inp cs hls vls).curvesShown =
      cs.filter (fun c =>
        !(((legendEntryNames cs).filter (fun n => !(inp.checkedAfter n))).contains c.name)) := by
    simp only [plotUi, Option.getD_some, legendStep, hleg, if_true]
  constructor
  · intro hunchecked hex
    have hmem : N ∈ (legendEntryNames cs).filter (fun n => !(inp.checkedAfter n)) := by
      rw [List.mem_filter]
      exact ⟨mem_legendEntryNames.mpr ⟨hN, hex⟩, by rw [hunchecked]; rfl⟩
    constructor
    · rw [hhid]
      exact hmem
    · intro c hc hname
      rw [hcur, List.mem_filter] at hc
      have h2 := hc.2
      rw [hname, Bool.not_eq_true'] at h2
      refine absurd (List.elem_iff.mpr hmem) ?_
      intro hx
      rw [show List.elem N (List.filter (fun n => !inp.checkedAfter n) (legendEntryNames cs))
        = false from h2] at hx
      exact Bool.false_ne_true hx
  · intro hchecked
    have hnotmem : N ∉ (legendEntryNames cs).filter (fun n => !(inp.checkedAfter n)) := by
      rw [List.mem_filter]
      rintro ⟨-, hbad⟩
      rw [hchecked] at hbad
      exact Bool.false_ne_true hbad
    constructor
    · rw [hhid]
      exact hnotmem
    · intro c hc hname
      rw [hcur, List.mem_filter]
      refine ⟨hc, ?_⟩
      rw [hname]
      simp only [Bool.not_eq_true']
      exact Bool.eq_false_iff.mpr (fun hcon => hnotmem (List.elem_iff.mp hcon))

/-- Witness for C7: a two-curve plot where the entry of the first name is
unchecked and the entry of the second stays checked. -/
theorem legend_hiding_witness :
    ((fun n => n ≠ "a" : String → Bool) "a" = false) ∧
    ("a" ∈ (plotUi
        ⟨false, false, true, true, Bounds.NOTHING, (1/20, 1/20), (64, 64),
          none, none, none, none, true, true, true⟩
        (some ⟨Bounds.new_symmetrical 1, true, []⟩)
        (PlotInput.mk (100, 100) false (0, 0) false none 1 (1, 1) (0, 0)
          (fun n => n ≠ "a") false)
        [⟨"a", [⟨1, 2⟩]⟩, ⟨"b", [⟨3, 4⟩]⟩] [] []).persisted.hidden_curves) ∧
    (∀ c ∈ (plotUi
        ⟨false, false, true, true, Bounds.NOTHING, (1/20, 1/20), (64, 64),
          none, none, none, none, true, true, true⟩
        (some ⟨Bounds.new_symmetrical 1, true, []⟩)
        (PlotInput.mk (100, 100) false (0, 0) false none 1 (1, 1) (0, 0)
          (fun n => n ≠ "a") false)
        [⟨"a", [⟨1, 2⟩]⟩, ⟨"b", [⟨3, 4⟩]⟩] [] []).curvesShown, c.name ≠ "a") := by
  have h := (legend_hiding
    ⟨false, false, true, true, Bounds.NOTHING, (1/20, 1/20), (64, 64),
      none, none, none, none, true, true, true⟩
    ⟨Bounds.new_symmetrical 1, true, []⟩
    (PlotInput.mk (100, 100) false (0, 0) false none 1 (1, 1) (0, 0)
      (fun n => n ≠ "a") false)
    [⟨"a", [⟨1, 2⟩]⟩, ⟨"b", [⟨3, 4⟩]⟩] [] [] "a" rfl (by decide)).1
    (by simp) ⟨⟨"a", [⟨1, 2⟩]⟩, by simp, rfl⟩
  exact ⟨by simp, h.1, h.2⟩

theorem autofitBounds_subsetOf_stages (minAuto : Bounds) (margin : ℚ × ℚ)
    (hfx : 0 ≤ margin.1) (hfy : 0 ≤ margin.2)
    (hls : List HLine) (vls : List VLine) (cs : List Curve) :
    Bounds.subsetOf
      (vls.foldl (fun b l => b.extend_with_x l.x)
        (hls.foldl (fun b l => b.extend_with_y l.y) minAuto))
      (autofitBounds minAuto margin hls vls cs) := by
  rw [autofitBounds]
  refine Bounds.subsetOf_trans
    (b := cs.foldl (fun b c => b.merge c.bounds)
      (vls.foldl (fun b l => b.extend_with_x l.x)
        (hls.foldl (fun b l => b.extend_with_y l.y) minAuto))) ?_ ?_
  · exact foldl_subsetOf (fun b c => b.merge c.bounds)
      (fun b c => Bounds.merge_subsetOf b c.bounds) cs _
  · exact Bounds.add_relative_margin_subsetOf _ hfx hfy

set_option maxHeartbeats 4000000 in
/-- Claim C4: whenever auto-fit is in effect, the bounds produced by the
auto-fit stage (declared minimum, HLine/VLine coordinates, visible curve
bounds, then margin expansion) contain every point of every visible curve,
the y of every HLine and the x of every VLine. -/
theorem autofit_includes_data (cfg : PlotConfig) (mem : PlotMemory)
    (inp : PlotInput) (cs : List Curve) (hls : List HLine) (vls : List VLine)
    (hfx : 0 ≤ cfg.margin_fraction.1) (hfy : 0 ≤ cfg.margin_fraction.2)
    (hauto : (mem.auto_bounds || inp.double_clicked_primary ||
      !mem.bounds.is_valid) = true) :
    (∀ c ∈ (plotUi cfg (some mem) inp cs hls vls).curvesShown, ∀ v ∈ c.values,
      (plotUi cfg (some mem) inp cs hls vls).boundsAfterAutofit.containsV v = true) ∧
    (∀ l ∈ hls,
      (plotUi cfg (some mem) inp cs hls vls).boundsAfterAutofit.containsY l.y = true) ∧
    (∀ l ∈ vls,
      (plotUi cfg (some mem) inp cs hls vls).boundsAfterAutofit.containsX l.x = true) := by
  have hcur : (plotUi cfg (some mem) inp cs hls vls).curvesShown =
      (legendStep cfg.show_legend inp.checkedAfter cs mem.hidden_curves).1 := by
    simp only [plotUi, Option.getD_some]
  have hb : (plotUi cfg (some mem) inp cs hls vls).boundsAfterAutofit =
      autofitBounds cfg.min_auto_bounds cfg.margin_fraction hls vls
        (legendStep cfg.show_legend inp.checkedAfter cs mem.hidden_curves).1 := by
    simp only [plotUi, Option.getD_some]
    rw [if_pos hauto]
  rw [hcur, hb]
  clear hcur hb
  refine ⟨?_, ?_, ?_⟩
  · intro c hc v hv
    rw [autofitBounds]
    refine Bounds.containsV_mono (Bounds.add_relative_margin_subsetOf _ hfx hfy) ?_
    refine foldl_pred (fun b => b.containsV v = true) (fun b c' => b.merge c'.bounds)
      (fun b c' => Bounds.merge_subsetOf b c'.bounds)
      (fun hs hp => Bounds.containsV_mono hs hp) _ _ c hc ?_
    intro b
    exact Bounds.merge_containsV b (curve_bounds_valid hv) (curve_bounds_containsV hv)
  · intro l hl
    refine Bounds.containsY_mono (autofitBounds_subsetOf_stages cfg.min_auto_bounds
      cfg.margin_fraction hfx hfy hls vls _) ?_
    refine Bounds.containsY_mono
      (foldl_subsetOf (fun b l' => b.extend_with_x l'.x)
        (fun b l' => Bounds.extend_with_x_subsetOf b l'.x) vls _) ?_
    refine foldl_pred (fun b => b.containsY l.y = true) (fun b l' => b.extend_with_y l'.y)
      (fun b l' => Bounds.extend_with_y_subsetOf b l'.y)
      (fun hs hp => Bounds.containsY_mono hs hp) _ _ l hl ?_
    intro b
    exact Bounds.extend_with_y_containsY b l.y
  · intro l hl
    refine Bounds.containsX_mono (autofitBounds_subsetOf_stages cfg.min_auto_bounds
      cfg.margin_fraction hfx hfy hls vls _) ?_
    refine foldl_pred (fun b => b.containsX l.x = true) (fun b l' => b.extend_with_x l'.x)
      (fun b l' => Bounds.extend_with_x_subsetOf b l'.x)
      (fun hs hp => Bounds.containsX_mono hs hp) _ _ l hl ?_
    intro b
    exact Bounds.extend_with_x_containsX b l.x

/-- Witness for C4: a single curve with one point, one HLine and one VLine
under auto-fit. -/
theorem autofit_includes_data_witness :
    (0 ≤ (1/20 : ℚ)) ∧
    ((true || false || !(Bounds.new_symmetrical 1).is_valid) = true) ∧
    (∀ c ∈ (plotUi
        ⟨false, false, true, true, Bounds.NOTHING, (1/20, 1/20), (64, 64),
          none, none, none, none, true, true, false⟩
        (some ⟨Bounds.new_symmetrical 1, true, []⟩)
        (PlotInput.mk (100, 100) false (0, 0) false none 1 (1, 1) (0, 0)
          (fun _ => true) false)
        [⟨"a", [⟨1, 2⟩]⟩] [⟨5⟩] [⟨7⟩]).curvesShown, ∀ v ∈ c.values,
      (plotUi
        ⟨false, false, true, true, Bounds.NOTHING, (1/20, 1/20), (64, 64),
          none, none, none, none, true, true, false⟩
        (some ⟨Bounds.new_symmetrical 1, true, []⟩)
        (PlotInput.mk (100, 100) false (0, 0) false none 1 (1, 1) (0, 0)
          (fun _ => true) false)
        [⟨"a", [⟨1, 2⟩]⟩] [⟨5⟩] [⟨7⟩]).boundsAfterAutofit.containsV v = true) ∧
    (∀ l ∈ [HLine.mk 5],
      (plotUi
        ⟨false, false, true, true, Bounds.NOTHING, (1/20, 1/20), (64, 64),
          none, none, none, none, true, true, false⟩
        (some ⟨Bounds.new_symmetrical 1, true, []⟩)
        (PlotInput.mk (100, 100) false (0, 0) false none 1 (1, 1) (0, 0)
          (fun _ => true) false)
        [⟨"a", [⟨1, 2⟩]⟩] [⟨5⟩] [⟨7⟩]).boundsAfterAutofit.containsY l.y = true) := by
  have h := autofit_includes_data
    ⟨false, false, true, true, Bounds.NOTHING, (1/20, 1/20), (64, 64),
      none, none, none, none, true, true, false⟩
    ⟨Bounds.new_symmetrical 1, true, []⟩
    (PlotInput.mk (100, 100) false (0, 0) false none 1 (1, 1) (0, 0)
      (fun _ => true) false)
    [⟨"a", [⟨1, 2⟩]⟩] [⟨5⟩] [⟨7⟩] (by norm_num) (by norm_num) rfl
  exact ⟨by norm_num, rfl, h.1, h.2.1⟩


set_option maxHeartbeats 1000000 in
theorem hoverScan_none_sample :
    (hoverScan ⟨⟨0,0,100,100⟩, 0, 100, 0, 100, false, false⟩ ⟨50,50⟩
      (flattenPoints [⟨"a", [⟨66,50⟩]⟩])).2 = none := by
  norm_num [hoverScan, hoverStep, hoverDist, flattenPoints, distance_sq,
    ScreenTransform.position_from_value, Rect.width, Rect.height, interact_radius]

set_option maxHeartbeats 1000000 in
theorem hoverScan_some_sample :
    (hoverScan ⟨⟨0,0,100,100⟩, 0, 100, 0, 100, false, false⟩ ⟨50,50⟩
      (flattenPoints [⟨"a", [⟨60,50⟩]⟩])).2 = some ("a", ⟨60,50⟩) := by
  norm_num [hoverScan, hoverStep, hoverDist, flattenPoints, distance_sq,
    ScreenTransform.position_from_value, Rect.width, Rect.height, interact_radius]

/-- Claim C1 (amended): the hover query reports the data point whose squared
screen distance to the pointer is minimal among all visible points, provided
that distance is strictly smaller than the squared 16-pixel interaction
radius, ties resolving to the first point in curve-then-point order; when no
point is strictly within the radius, no point is reported and the displayed
value is the inverse transform of the raw pointer position with no name
text. -/
theorem hover_query_spec (t : ScreenTransform) (sx sy : Bool) (cs : List Curve)
    (p : Pos2) (hs : sx = true ∨ sy = true) :
    (∀ nv : String × Value, (hoverScan t p (flattenPoints cs)).2 = some nv →
      hoverDist t p nv < interact_radius ^ 2 ∧
      (∃ l1 l2, flattenPoints cs = l1 ++ nv :: l2 ∧
        (∀ u ∈ l1, hoverDist t p nv < hoverDist t p u) ∧
        (∀ u ∈ l2, hoverDist t p nv ≤ hoverDist t p u)) ∧
      hoverResult t sx sy cs p = some (nv.2, if nv.1 = "" then none else some nv.1)) ∧
    ((hoverScan t p (flattenPoints cs)).2 = none →
      (∀ u ∈ flattenPoints cs, interact_radius ^ 2 ≤ hoverDist t p u) ∧
      hoverResult t sx sy cs p = some (t.value_from_position p, none)) := by
  have hshow : (!sx && !sy) = false := by
    rcases hs with h | h <;> rw [h] <;> simp
  constructor
  · intro nv hnv
    rcases hoverScan_go t p (flattenPoints cs) (interact_radius ^ 2) none with
      ⟨heq, hall⟩ | ⟨l1, v, l2, hsplit, heq, hlt, h1, h2⟩
    · rw [hoverScan, heq] at hnv
      exact absurd hnv (by simp)
    · have hv : (hoverScan t p (flattenPoints cs)).2 = some v := by
        rw [hoverScan, heq]
      rw [hv] at hnv
      have hveq := Option.some.inj hnv
      subst hveq
      refine ⟨hlt, ⟨l1, l2, hsplit, h1, h2⟩, ?_⟩
      simp [hoverResult, hv, hshow]
  · intro hnone
    rcases hoverScan_go t p (flattenPoints cs) (interact_radius ^ 2) none with
      ⟨heq, hall⟩ | ⟨l1, v, l2, hsplit, heq, hlt, h1, h2⟩
    · refine ⟨hall, ?_⟩
      simp [hoverResult, hnone, hshow]
    · have hv : (hoverScan t p (flattenPoints cs)).2 = some v := by
        rw [hoverScan, heq]
      rw [hv] at hnone
      exact absurd hnone (by simp)

/-- Counterexample to C1 as stated: a point at screen distance exactly 16
from the pointer (no larger than the interaction radius) is not reported:
the displayed value falls back to the inverse-transformed pointer with no
name text. -/
theorem hover_radius_boundary_cex :
    distance_sq ⟨50,50⟩
      ((⟨⟨0,0,100,100⟩, 0, 100, 0, 100, false, false⟩ : ScreenTransform).position_from_value
        ⟨66,50⟩) = interact_radius ^ 2 ∧
    hoverResult ⟨⟨0,0,100,100⟩, 0, 100, 0, 100, false, false⟩ true true
        [⟨"a", [⟨66,50⟩]⟩] ⟨50,50⟩ =
      some ((⟨⟨0,0,100,100⟩, 0, 100, 0, 100, false, false⟩ : ScreenTransform).value_from_position
        ⟨50,50⟩, none) := by
  constructor
  · norm_num [distance_sq, ScreenTransform.position_from_value, Rect.width, Rect.height,
      interact_radius]
  · rw [hoverResult, if_neg (by simp), hoverScan_none_sample]

/-- Witness for the amended C1 at a point strictly inside the radius. -/
theorem hover_query_spec_witness :
    ((true : Bool) = true ∨ (true : Bool) = true) ∧
    (hoverScan ⟨⟨0,0,100,100⟩, 0, 100, 0, 100, false, false⟩ ⟨50,50⟩
      (flattenPoints [⟨"a", [⟨60,50⟩]⟩])).2 = some ("a", ⟨60,50⟩) ∧
    (hoverDist ⟨⟨0,0,100,100⟩, 0, 100, 0, 100, false, false⟩ ⟨50,50⟩ ("a", ⟨60,50⟩)
        < interact_radius ^ 2 ∧
      (∃ l1 l2, flattenPoints [(⟨"a", [⟨60,50⟩]⟩ : Curve)] = l1 ++ ("a", ⟨60,50⟩) :: l2 ∧
        (∀ u ∈ l1, hoverDist ⟨⟨0,0,100,100⟩, 0, 100, 0, 100, false, false⟩ ⟨50,50⟩ ("a", ⟨60,50⟩)
            < hoverDist ⟨⟨0,0,100,100⟩, 0, 100, 0, 100, false, false⟩ ⟨50,50⟩ u) ∧
        (∀ u ∈ l2, hoverDist ⟨⟨0,0,100,100⟩, 0, 100, 0, 100, false, false⟩ ⟨50,50⟩ ("a", ⟨60,50⟩)
            ≤ hoverDist ⟨⟨0,0,100,100⟩, 0, 100, 0, 100, false, false⟩ ⟨50,50⟩ u)) ∧
      hoverResult ⟨⟨0,0,100,100⟩, 0, 100, 0, 100, false, false⟩ true true
          [⟨"a", [⟨60,50⟩]⟩] ⟨50,50⟩ =
        some ((⟨60,50⟩ : Value), if ("a" : String) = "" then none else some "a")) := by
  have h := (hover_query_spec ⟨⟨0,0,100,100⟩, 0, 100, 0, 100, false, false⟩ true true
    [⟨"a", [⟨60,50⟩]⟩] ⟨50,50⟩ (Or.inl rfl)).1 ("a", ⟨60,50⟩) hoverScan_some_sample
  exact ⟨Or.inl rfl, hoverScan_some_sample, h⟩


set_option maxRecDepth 4000 in
set_option maxHeartbeats 1000000 in
theorem ticksOf_sample :
    ticksOf ⟨⟨0,0,100,100⟩, 11/20, 51/20, 0, 1, false, false⟩ 0 = [0, 1, 2] := by
  have h2 : ceilLog10 (3/25) = 0 := by
    rw [ceilLog10]
    rw [if_neg (by norm_num)]
    have h9 : (⌊1 / (3/25 : ℚ)⌋.toNat + 1) = 9 := by
      rw [show (⌊1 / (3/25 : ℚ)⌋ : ℤ) = 8 from by norm_num]
      decide
    rw [h9, ceilLogDown, if_neg (by norm_num), if_neg (by norm_num)]
    norm_num
  have habs : |(3 : ℚ)/25| = 3/25 := by
    rw [abs_of_pos]
    norm_num
  have h3 : stepSizeOf ⟨⟨0,0,100,100⟩, 11/20, 51/20, 0, 1, false, false⟩ 0 = 1 := by
    rw [stepSizeOf]
    have harg : (ScreenTransform.mk ⟨0,0,100,100⟩ (11/20) (51/20) 0 1 false false).dvalue_dpos_axis 0
        * min_line_spacing_in_points = 3/25 := by
      norm_num [ScreenTransform.dvalue_dpos_axis, ScreenTransform.dvalue_dpos, Rect.width,
        min_line_spacing_in_points]
    rw [harg, habs, h2, pow10Z]
    norm_num
  rw [ticksOf, h3]
  have hmin : (ScreenTransform.mk ⟨0,0,100,100⟩ (11/20) (51/20) 0 1 false false).boundsMin 0
      = 11/20 := by
    norm_num [ScreenTransform.boundsMin]
  have hmax : (ScreenTransform.mk ⟨0,0,100,100⟩ (11/20) (51/20) 0 1 false false).boundsMax 0
      = 51/20 := by
    norm_num [ScreenTransform.boundsMax]
  rw [hmin, hmax, ticks]
  have hf : ((⌊(51/20 : ℚ) / 1⌋ - ⌊(11/20 : ℚ) / 1⌋ + 2)).toNat = 4 := by
    rw [show (⌊(51/20 : ℚ) / 1⌋ - ⌊(11/20 : ℚ) / 1⌋ + 2 : ℤ) = 4 from by norm_num]
    decide
  rw [hf]
  have ht0 : tickValue 1 (11/20) 0 = 0 := by
    rw [tickValue]
    norm_num
  have ht1 : tickValue 1 (11/20) 1 = 1 := by
    rw [tickValue]
    norm_num
  have ht2 : tickValue 1 (11/20) 2 = 2 := by
    rw [tickValue]
    norm_num
  have ht3 : tickValue 1 (11/20) 3 = 3 := by
    rw [tickValue]
    norm_num
  rw [ticksFrom, if_neg (by norm_num), ht0, if_neg (by norm_num)]
  rw [ticksFrom, if_neg (by norm_num), ht1, if_neg (by norm_num)]
  rw [ticksFrom, if_neg (by norm_num), ht2, if_neg (by norm_num)]
  rw [ticksFrom, if_neg (by norm_num), ht3, if_pos (by norm_num)]

/-- Claim C2 (amended): every emitted tick is at most `bounds.max` on its
axis and exceeds `bounds.min - step_size` (so only the first tick may fall
below `bounds.min`, by less than one step), and any two adjacent emitted
ticks are separated by exactly the constant step size. -/
theorem ticks_spacing_spec (t : ScreenTransform) (axis : ℕ) :
    (∀ v ∈ ticksOf t axis,
        v ≤ t.boundsMax axis ∧ t.boundsMin axis - stepSizeOf t axis < v) ∧
    (∀ (l1 : List ℚ) (a b : ℚ) (l2 : List ℚ),
        ticksOf t axis = l1 ++ a :: b :: l2 → b = a + stepSizeOf t axis) := by
  constructor
  · intro v hv
    rw [ticksOf, ticks] at hv
    rcases ticksFrom_mem _ _ v hv with ⟨⟨k, hk⟩, hb⟩
    refine ⟨hb, ?_⟩
    rw [hk]
    exact tickValue_lower (stepSizeOf_pos t axis) _
  · intro l1 a b l2 h
    rw [ticksOf, ticks] at h
    exact ticksFrom_adjacent _ _ l1 a b l2 h

/-- Counterexample to C2 as stated: on a transform with x bounds
`[0.55, 2.55]` the generator emits the tick `0`, which lies outside
`[bounds.min, bounds.max]`. -/
theorem tick_outside_bounds_cex :
    (0 : ℚ) ∈ ticksOf ⟨⟨0,0,100,100⟩, 11/20, 51/20, 0, 1, false, false⟩ 0 ∧
    ¬((⟨⟨0,0,100,100⟩, 11/20, 51/20, 0, 1, false, false⟩ : ScreenTransform).boundsMin 0 ≤ 0) := by
  constructor
  · rw [ticksOf_sample]
    simp
  · norm_num [ScreenTransform.boundsMin]

/-- Witness for the amended C2 on the same concrete transform. -/
theorem ticks_spacing_spec_witness :
    ((1:ℚ) ∈ ticksOf ⟨⟨0,0,100,100⟩, 11/20, 51/20, 0, 1, false, false⟩ 0 ∧
      ((1:ℚ) ≤ (⟨⟨0,0,100,100⟩, 11/20, 51/20, 0, 1, false, false⟩ : ScreenTransform).boundsMax 0 ∧
        (⟨⟨0,0,100,100⟩, 11/20, 51/20, 0, 1, false, false⟩ : ScreenTransform).boundsMin 0 -
          stepSizeOf ⟨⟨0,0,100,100⟩, 11/20, 51/20, 0, 1, false, false⟩ 0 < 1)) ∧
    (ticksOf ⟨⟨0,0,100,100⟩, 11/20, 51/20, 0, 1, false, false⟩ 0 = [] ++ 0 :: 1 :: [2] ∧
      ((1:ℚ) = 0 + stepSizeOf ⟨⟨0,0,100,100⟩, 11/20, 51/20, 0, 1, false, false⟩ 0)) := by
  have hmem : (1:ℚ) ∈ ticksOf ⟨⟨0,0,100,100⟩, 11/20, 51/20, 0, 1, false, false⟩ 0 := by
    rw [ticksOf_sample]
    simp
  have hsplit : ticksOf ⟨⟨0,0,100,100⟩, 11/20, 51/20, 0, 1, false, false⟩ 0
      = [] ++ 0 :: 1 :: [2] := by
    rw [ticksOf_sample]
    rfl
  exact ⟨⟨hmem, (ticks_spacing_spec _ 0).1 1 hmem⟩,
    hsplit, (ticks_spacing_spec _ 0).2 [] 0 1 [2] hsplit⟩

/-- Claim C3: for a transform with valid finite bounds the tick loop
terminates: some iteration index produces a value exceeding `bounds.max`,
reaching the break. -/
theorem tick_loop_terminates (t : ScreenTransform) (axis : ℕ)
    (hvalid : t.boundsMin axis ≤ t.boundsMax axis) :
    ∃ i : ℕ, t.boundsMax axis < tickValue (stepSizeOf t axis) (t.boundsMin axis) i :=
  tick_break_exists (stepSizeOf_pos t axis)

/-- Witness for C3 on a concrete transform. -/
theorem tick_loop_terminates_witness :
    ((⟨⟨0,0,100,100⟩, 0, 2, 0, 1, false, false⟩ : ScreenTransform).boundsMin 0 ≤
      (⟨⟨0,0,100,100⟩, 0, 2, 0, 1, false, false⟩ : ScreenTransform).boundsMax 0) ∧
    (∃ i : ℕ, (⟨⟨0,0,100,100⟩, 0, 2, 0, 1, false, false⟩ : ScreenTransform).boundsMax 0 <
      tickValue (stepSizeOf ⟨⟨0,0,100,100⟩, 0, 2, 0, 1, false, false⟩ 0)
        ((⟨⟨0,0,100,100⟩, 0, 2, 0, 1, false, false⟩ : ScreenTransform).boundsMin 0) i) :=
  ⟨by norm_num [ScreenTransform.boundsMin, ScreenTransform.boundsMax],
    tick_loop_terminates _ 0
      (by norm_num [ScreenTransform.boundsMin, ScreenTransform.boundsMax])⟩

end EguiPlot
